import Mathlib

/-!
Verification of the iRacing G-meter overlay (`ir_gmeter.py`).

The numeric pipeline of the program is embedded shallowly:

* A Python `float` flowing through the telemetry pipeline is modelled as
  `FVal := Option ℝ`: `some x` is an ordinary (finite) double, idealised as a
  real number, and `none` is the IEEE NaN sentinel produced by `float('nan')`.
  The arithmetic helpers `fadd`, `fmul`, `fdiv`, `fsin`, `fcos` propagate the
  NaN sentinel exactly as IEEE double arithmetic propagates NaN.  (Infinities
  and rounding are not modelled; no claim here depends on them.  The only
  division in the pipeline is by the nonzero constant `G0`.)
* Python `None` is distinct from NaN: a smoothed channel `self._s_long_g`,
  which is `None` or a float, is modelled as `Option FVal`.
* The `deque(maxlen=120)` trail is modelled as a `List` together with the
  append-and-evict operation `dequeAppend`.
-/

namespace IrGmeter

/-- A Python float value in the telemetry pipeline: `some x` is a finite
double (idealised as a real), `none` is the NaN sentinel. -/
abbrev FVal := Option ℝ

/-- Addition on Python floats; NaN propagates. -/
def fadd : FVal → FVal → FVal
  | some a, some b => some (a + b)
  | _, _ => none

/-- Multiplication on Python floats; NaN propagates. -/
def fmul : FVal → FVal → FVal
  | some a, some b => some (a * b)
  | _, _ => none

/-- Division on Python floats; NaN propagates.  (In the program the only
divisor is the nonzero constant `G0`.) -/
noncomputable def fdiv : FVal → FVal → FVal
  | some a, some b => some (a / b)
  | _, _ => none

/-- `math.sin` on Python floats; NaN propagates. -/
noncomputable def fsin : FVal → FVal
  | some a => some (Real.sin a)
  | none => none

/-- `math.cos` on Python floats; NaN propagates. -/
noncomputable def fcos : FVal → FVal
  | some a => some (Real.cos a)
  | none => none

/-- `math.isnan`. -/
def fisnan (x : FVal) : Bool := x.isNone

/-- `G0 = 9.80665  # m/s^2` (line 23). -/
noncomputable def G0 : ℝ := 9.80665

/-- `ema(prev, new, alpha)` (lines 25-28):
`if prev is None: return new; return alpha * new + (1 - alpha) * prev`.
`prev` is Python `None` or a float; `new` is a float; `alpha` is the
clamped smoothing factor (never NaN). -/
def ema (prev : Option FVal) (new : FVal) (alpha : ℝ) : FVal :=
  match prev with
  | none => new
  | some p => fadd (fmul (some alpha) new) (fmul (some (1 - alpha)) p)

/-- One telemetry emission `(long_ms2, lat_ms2, pitch, roll)`; each component
is a float that may be NaN. -/
structure TelemetryFrame where
  long_ms2 : FVal
  lat_ms2 : FVal
  pitch : FVal
  roll : FVal

/-- The mutable state of `GMeterOverlay` touched by `_on_telemetry`:
`self.alpha`, `self.use_comp`, `self._s_long_g`, `self._s_lat_g`,
`self._last_pos`, `self._trail`. -/
structure OverlayState where
  alpha : ℝ
  use_comp : Bool
  s_long_g : Option FVal
  s_lat_g : Option FVal
  last_pos : Option (FVal × FVal)
  trail : List (FVal × FVal)

/-- Gravity compensation for the longitudinal channel (line 170):
`long_ms2 = long_ms2 + G0 * math.sin(pitch)`. -/
noncomputable def compLong (long_ms2 pitch : FVal) : FVal :=
  fadd long_ms2 (fmul (some G0) (fsin pitch))

/-- Gravity compensation for the lateral channel (line 171):
`lat_ms2 = lat_ms2 + G0 * math.cos(pitch) * math.sin(roll)`. -/
noncomputable def compLat (lat_ms2 pitch roll : FVal) : FVal :=
  fadd lat_ms2 (fmul (fmul (some G0) (fcos pitch)) (fsin roll))

/-- Append to `deque(maxlen=120)` (lines 108 and 184): the new point goes to
the right end; if the deque would exceed 120 entries the leftmost (oldest)
entries are discarded so that exactly 120 remain. -/
def dequeAppend {α : Type} (t : List α) (p : α) : List α :=
  if 120 < (t ++ [p]).length then (t ++ [p]).drop ((t ++ [p]).length - 120)
  else t ++ [p]

/-- `GMeterOverlay._on_telemetry` (lines 157-184). -/
noncomputable def onTelemetry (st : OverlayState) (f : TelemetryFrame) :
    OverlayState :=
  if fisnan f.long_ms2 || fisnan f.lat_ms2 then
    { st with s_long_g := none, s_lat_g := none, last_pos := none }
  else
    let long_ms2 := if st.use_comp then compLong f.long_ms2 f.pitch
                    else f.long_ms2
    let lat_ms2 := if st.use_comp then compLat f.lat_ms2 f.pitch f.roll
                   else f.lat_ms2
    let long_g := fdiv long_ms2 (some G0)
    let lat_g := fdiv lat_ms2 (some G0)
    let sLong := ema st.s_long_g long_g st.alpha
    let sLat := ema st.s_lat_g lat_g st.alpha
    let st2 := { st with s_long_g := some sLong, s_lat_g := some sLat }
    if st2.s_long_g.isSome && st2.s_lat_g.isSome then
      { st2 with last_pos := some (sLat, sLong),
                 trail := dequeAppend st2.trail (sLat, sLong) }
    else st2

/-- The telemetry variables read by `IRacingReader._tick` (lines 68-71). -/
inductive VarName
  | longAccelST
  | longAccel
  | latAccelST
  | latAccel
  | pitch
  | roll

/-- `getvar(name, fallback)` (lines 61-66) for the two acceleration
channels: prefer the high-rate variable, fall back to the standard one,
return NaN when both are absent.  `rd` is the state of the shared-memory
telemetry source: `rd v = none` means variable `v` is absent. -/
def getvar (rd : VarName → Option ℝ) (name fallback : VarName) : FVal :=
  match rd name with
  | some v => some v
  | none =>
    match rd fallback with
    | some v => some v
    | none => none

/-- `getvar(name)` with no fallback (lines 70-71, for `Pitch` and `Roll`):
absent means NaN. -/
def getvarNoFall (rd : VarName → Option ℝ) (name : VarName) : FVal :=
  match rd name with
  | some v => some v
  | none => none

/-- The frame emitted when disconnected or when a read raises
(lines 54 and 81): `(nan, nan, 0.0, 0.0)`. -/
def noDataFrame : TelemetryFrame := ⟨none, none, some 0, some 0⟩

/-- `IRacingReader._tick` (lines 50-81), as a function of the source state:
`connected` is `self.connected and self.ir.is_connected` after the reconnect
attempt; `raises` is true when any operation of the tick raises (the
`except` path, line 74); `rd` gives the readable variables. -/
def tick (connected raises : Bool) (rd : VarName → Option ℝ) :
    TelemetryFrame :=
  if raises || !connected then noDataFrame
  else
    ⟨getvar rd .longAccelST .longAccel, getvar rd .latAccelST .latAccel,
     getvarNoFall rd .pitch, getvarNoFall rd .roll⟩

/-- The configuration fields consumed by `GMeterOverlay.__init__` that the
hotkey machinery touches (lines 97-102). -/
structure Config where
  g_scale : ℝ
  alpha : ℝ
  use_comp : Bool
  show_trail : Bool
  show_help : Bool
  enable_hotkeys : Bool

/-- The runtime settings of `GMeterOverlay` adjustable by hotkeys. -/
structure Settings where
  g_scale : ℝ
  alpha : ℝ
  use_comp : Bool
  show_trail : Bool
  show_help : Bool
  enable_hotkeys : Bool

/-- Construction from a config document (lines 97-102):
`self.g_scale = float(config.get('g_scale', 2.0))` — not clamped;
`self.alpha = float(max(0.05, min(0.95, config.get('alpha', 0.25))))`. -/
noncomputable def initSettings (c : Config) : Settings :=
  { g_scale := c.g_scale
    alpha := max 0.05 (min 0.95 c.alpha)
    use_comp := c.use_comp
    show_trail := c.show_trail
    show_help := c.show_help
    enable_hotkeys := c.enable_hotkeys }

/-- The keys handled by `GMeterOverlay.keyPressEvent` (lines 136-154);
`keyOther` stands for any other key. -/
inductive Key
  | keyG
  | keyT
  | keyH
  | keyPlus
  | keyEqual
  | keyMinus
  | keyUnderscore
  | keyS
  | keyA
  | keyOther

/-- `GMeterOverlay.keyPressEvent` (lines 136-154). -/
noncomputable def keyPressEvent (s : Settings) (k : Key) : Settings :=
  if !s.enable_hotkeys then s
  else
    match k with
    | .keyG => { s with use_comp := !s.use_comp }
    | .keyT => { s with show_trail := !s.show_trail }
    | .keyH => { s with show_help := !s.show_help }
    | .keyPlus => { s with g_scale := min 5.0 (s.g_scale + 0.25) }
    | .keyEqual => { s with g_scale := min 5.0 (s.g_scale + 0.25) }
    | .keyMinus => { s with g_scale := max 0.5 (s.g_scale - 0.25) }
    | .keyUnderscore => { s with g_scale := max 0.5 (s.g_scale - 0.25) }
    | .keyS => { s with alpha := min 0.95 (s.alpha + 0.05) }
    | .keyA => { s with alpha := max 0.05 (s.alpha - 0.05) }
    | .keyOther => s

/-- A sequence of hotkey presses applied in order. -/
noncomputable def applyKeys (s : Settings) (ks : List Key) : Settings :=
  ks.foldl keyPressEvent s

/-- `radius = min(w, h) * 0.45` (line 194). -/
noncomputable def radiusOf (w h : ℝ) : ℝ := min w h * 0.45

/-- `x = center.x() - (lat_g / self.g_scale) * radius` (line 251), with
`center.x() = w/2` (line 193). -/
noncomputable def dotX (w h g_scale lat_g : ℝ) : ℝ :=
  w / 2 - lat_g / g_scale * radiusOf w h

/-- `y = center.y() - (long_g / self.g_scale) * radius` (line 252), with
`center.y() = h/2` (line 193). -/
noncomputable def dotY (w h g_scale long_g : ℝ) : ℝ :=
  h / 2 - long_g / g_scale * radiusOf w h

/-- Repeated smoothing of the constant input `c` starting from the smoothed
value `x0`: the orbit of the `ema` update on one channel. -/
noncomputable def emaIter (a : ℝ) (c x0 : FVal) : ℕ → FVal
  | 0 => x0
  | n + 1 => ema (some (emaIter a c x0 n)) c a

/-! ## Helper lemmas -/

theorem dequeAppend_length_le {α : Type} (t : List α) (p : α) :
    (dequeAppend t p).length ≤ 120 := by
  unfold dequeAppend
  split
  · next h =>
    rw [List.length_drop]
    omega
  · next h => omega

theorem dequeAppend_of_lt {α : Type} (t : List α) (p : α)
    (h : t.length < 120) : dequeAppend t p = t ++ [p] := by
  unfold dequeAppend
  rw [if_neg]
  simp only [List.length_append, List.length_singleton]
  omega

theorem dequeAppend_of_full {α : Type} (t : List α) (p : α)
    (h : t.length = 120) : dequeAppend t p = t.tail ++ [p] := by
  unfold dequeAppend
  rw [if_pos (by simp [h])]
  have h1 : (t ++ [p]).length - 120 = 1 := by simp [h]
  rw [h1, List.drop_append_of_le_length (by omega), List.drop_one]

theorem foldl_dequeAppend_drop {α : Type} (ps : List α) :
    ps.foldl dequeAppend [] = ps.drop (ps.length - 120) := by
  induction ps using List.reverseRecOn with
  | nil => rfl
  | append_singleton xs x ih =>
    rw [List.foldl_append, List.foldl_cons, List.foldl_nil, ih]
    rcases lt_or_le xs.length 120 with h | h
    · rw [show xs.length - 120 = 0 by omega, List.drop_zero,
        dequeAppend_of_lt xs x h,
        show (xs ++ [x]).length - 120 = 0 by simp; omega, List.drop_zero]
    · have hlen : (xs.drop (xs.length - 120)).length = 120 := by
        rw [List.length_drop]; omega
      rw [dequeAppend_of_full _ x hlen, ← List.drop_one, List.drop_drop,
        show xs.length - 120 + 1 = xs.length - 119 by omega,
        show (xs ++ [x]).length - 120 = xs.length - 119 by
          simp only [List.length_append, List.length_singleton]; omega,
        List.drop_append_of_le_length (by omega)]

theorem ema_nan_new (prev : Option FVal) (a : ℝ) : ema prev none a = none := by
  cases prev with
  | none => rfl
  | some p => cases p <;> rfl

theorem ema_nan_prev (new : FVal) (a : ℝ) : ema (some none) new a = none := by
  cases new <;> rfl

/-! ## Claims -/

/-- C1: the exponential smoothing function `ema` equals the reference
definition: with no prior smoothed value the result is exactly the new
input, otherwise it is `alpha * new + (1 - alpha) * prev`; in particular
with `alpha = 0.25`, `prev = 0.0`, `new = 1.0` the result is `0.25`. -/
theorem ema_matches_reference (p n a : ℝ) (x : FVal) :
    ema none x a = x
    ∧ ema (some (some p)) (some n) a = some (a * n + (1 - a) * p)
    ∧ ema (some (some 0)) (some 1) 0.25 = some 0.25 := by
  refine ⟨rfl, rfl, ?_⟩
  show some ((0.25 : ℝ) * 1 + (1 - 0.25) * 0) = some 0.25
  norm_num

/-- C2: processing a frame with NaN in either acceleration channel sets
both smoothed channels to `none` (unset) and clears the last known
position, for every prior state. -/
theorem noData_frame_resets (st : OverlayState) (f : TelemetryFrame)
    (h : fisnan f.long_ms2 = true ∨ fisnan f.lat_ms2 = true) :
    (onTelemetry st f).s_long_g = none
    ∧ (onTelemetry st f).s_lat_g = none
    ∧ (onTelemetry st f).last_pos = none := by
  have hcond : (fisnan f.long_ms2 || fisnan f.lat_ms2) = true := by
    rcases h with h | h <;> simp [h]
  rw [onTelemetry, if_pos hcond]
  exact ⟨rfl, rfl, rfl⟩

/-- A concrete overlay state with nontrivial prior history. -/
def stEx : OverlayState :=
  { alpha := 1
    use_comp := false
    s_long_g := some (some 1)
    s_lat_g := some (some 2)
    last_pos := some (some 2, some 1)
    trail := [(some 2, some 1)] }

/-- A concrete frame whose longitudinal acceleration is NaN. -/
def fEx : TelemetryFrame := ⟨none, some 2, some 0, some 0⟩

/-- Witness for C2 at a concrete state and frame. -/
theorem noData_frame_resets_witness :
    (onTelemetry stEx fEx).s_long_g = none
    ∧ (onTelemetry stEx fEx).s_lat_g = none
    ∧ (onTelemetry stEx fEx).last_pos = none :=
  noData_frame_resets stEx fEx (Or.inl rfl)

/-- C7: processing a frame with NaN in either acceleration channel leaves
the trail exactly as it was, for every prior state. -/
theorem noData_frame_keeps_trail (st : OverlayState) (f : TelemetryFrame)
    (h : fisnan f.long_ms2 = true ∨ fisnan f.lat_ms2 = true) :
    (onTelemetry st f).trail = st.trail := by
  have hcond : (fisnan f.long_ms2 || fisnan f.lat_ms2) = true := by
    rcases h with h | h <;> simp [h]
  rw [onTelemetry, if_pos hcond]

/-- Witness for C7 at a concrete state with a nonempty trail. -/
theorem noData_frame_keeps_trail_witness :
    (onTelemetry stEx fEx).trail = [(some 2, some 1)] :=
  noData_frame_keeps_trail stEx fEx (Or.inl rfl)

/-- C5: the gravity compensation applied when enabled is
`long + G0 * sin pitch` and `lat + G0 * cos pitch * sin roll` with
`G0 = 9.80665`, and at `pitch = 0`, `roll = 0` it is a no-op. -/
theorem gravity_comp_formula (l la pch rl : ℝ) :
    compLong (some l) (some pch) = some (l + G0 * Real.sin pch)
    ∧ compLat (some la) (some pch) (some rl)
        = some (la + G0 * Real.cos pch * Real.sin rl)
    ∧ G0 = 9.80665
    ∧ compLong (some l) (some 0) = some l
    ∧ compLat (some la) (some 0) (some 0) = some la := by
  refine ⟨rfl, rfl, rfl, ?_, ?_⟩
  · show some (l + G0 * Real.sin 0) = some l
    simp
  · show some (la + G0 * Real.cos 0 * Real.sin 0) = some la
    simp

/-- C6: the trail holds at most 120 entries after any append; a new point
goes to the right end, the oldest entry being evicted exactly when the
trail is at capacity; starting empty, any append sequence leaves the last
120 points, so after 121 distinct appends the first point is gone and the
121st is present. -/
theorem trail_capacity (α : Type) (t : List α) (p : α) (ps : List α) :
    (dequeAppend t p).length ≤ 120
    ∧ (t.length < 120 → dequeAppend t p = t ++ [p])
    ∧ (t.length = 120 → dequeAppend t p = t.tail ++ [p])
    ∧ ps.foldl dequeAppend [] = ps.drop (ps.length - 120)
    ∧ (ps.length = 121 → ps.Nodup →
        (∀ q, ps.head? = some q → q ∉ ps.foldl dequeAppend [])
        ∧ (∀ q, ps.getLast? = some q → q ∈ ps.foldl dequeAppend [])) := by
  refine ⟨dequeAppend_length_le t p, dequeAppend_of_lt t p,
    dequeAppend_of_full t p, foldl_dequeAppend_drop ps, ?_⟩
  intro hlen hnd
  have hdrop : ps.foldl dequeAppend [] = ps.drop 1 := by
    rw [foldl_dequeAppend_drop, hlen]
  match ps, hlen with
  | q0 :: r1 :: rest, _ =>
    rw [hdrop, List.drop_one, List.tail_cons]
    constructor
    · intro q hq
      have hq0 : q0 = q := by simpa using hq
      exact hq0 ▸ (List.nodup_cons.mp hnd).1
    · intro q hq
      rw [List.getLast?_cons_cons] at hq
      obtain ⟨hne, rfl⟩ := List.mem_getLast?_eq_getLast hq
      exact List.getLast_mem hne

/-- Witness for C6: a full trail of 120 points, a 119-point trail, and the
sequence of the 121 points `0, ..., 120`. -/
theorem trail_capacity_witness :
    (dequeAppend (List.range 120) 120).length ≤ 120
    ∧ dequeAppend (List.range 119) 119 = List.range 119 ++ [119]
    ∧ dequeAppend (List.range 120) 120 = (List.range 120).tail ++ [120]
    ∧ (List.range 121).foldl dequeAppend []
        = (List.range 121).drop ((List.range 121).length - 120)
    ∧ 0 ∉ (List.range 121).foldl dequeAppend []
    ∧ 120 ∈ (List.range 121).foldl dequeAppend [] := by
  have h1 := trail_capacity ℕ (List.range 120) 120 (List.range 121)
  have h2 := trail_capacity ℕ (List.range 119) 119 (List.range 121)
  have h121 := h1.2.2.2.2 (by simp) (List.nodup_range 121)
  exact ⟨h1.1, h2.2.1 (by simp), h1.2.2.1 (by simp), h1.2.2.2.1,
    h121.1 0 (by decide), h121.2 120 (by decide)⟩

theorem keyPress_alpha_bounds (s : Settings) (k : Key)
    (h1 : 0.05 ≤ s.alpha) (h2 : s.alpha ≤ 0.95) :
    0.05 ≤ (keyPressEvent s k).alpha ∧ (keyPressEvent s k).alpha ≤ 0.95 := by
  unfold keyPressEvent
  split
  · exact ⟨h1, h2⟩
  · cases k
    case keyS => exact ⟨le_min (by norm_num) (by linarith), min_le_left _ _⟩
    case keyA => exact ⟨le_max_left _ _, max_le (by norm_num) (by linarith)⟩
    all_goals exact ⟨h1, h2⟩

theorem keyPress_gscale_bounds (s : Settings) (k : Key)
    (h1 : 0.5 ≤ s.g_scale) (h2 : s.g_scale ≤ 5.0) :
    0.5 ≤ (keyPressEvent s k).g_scale
    ∧ (keyPressEvent s k).g_scale ≤ 5.0 := by
  unfold keyPressEvent
  split
  · exact ⟨h1, h2⟩
  · cases k
    case keyPlus => exact ⟨le_min (by norm_num) (by linarith), min_le_left _ _⟩
    case keyEqual =>
      exact ⟨le_min (by norm_num) (by linarith), min_le_left _ _⟩
    case keyMinus =>
      exact ⟨le_max_left _ _, max_le (by norm_num) (by linarith)⟩
    case keyUnderscore =>
      exact ⟨le_max_left _ _, max_le (by norm_num) (by linarith)⟩
    all_goals exact ⟨h1, h2⟩

theorem applyKeys_alpha_bounds (ks : List Key) (s : Settings)
    (h1 : 0.05 ≤ s.alpha) (h2 : s.alpha ≤ 0.95) :
    0.05 ≤ (applyKeys s ks).alpha ∧ (applyKeys s ks).alpha ≤ 0.95 := by
  induction ks generalizing s with
  | nil => exact ⟨h1, h2⟩
  | cons k ks ih =>
    exact ih (keyPressEvent s k) (keyPress_alpha_bounds s k h1 h2).1
      (keyPress_alpha_bounds s k h1 h2).2

theorem applyKeys_gscale_bounds (ks : List Key) (s : Settings)
    (h1 : 0.5 ≤ s.g_scale) (h2 : s.g_scale ≤ 5.0) :
    0.5 ≤ (applyKeys s ks).g_scale ∧ (applyKeys s ks).g_scale ≤ 5.0 := by
  induction ks generalizing s with
  | nil => exact ⟨h1, h2⟩
  | cons k ks ih =>
    exact ih (keyPressEvent s k) (keyPress_gscale_bounds s k h1 h2).1
      (keyPress_gscale_bounds s k h1 h2).2

/-- C3 counterexample: constructing the overlay from a configuration
document with `g_scale = 10` leaves `g_scale = 10`, outside `[0.5, 5.0]` —
the constructor clamps `alpha` but copies `g_scale` unclamped. -/
theorem init_gscale_unclamped :
    (initSettings (Config.mk 10 0.25 false false false false)).g_scale = 10
    ∧ ¬ ((initSettings (Config.mk 10 0.25 false false false false)).g_scale
          ≤ 5.0) := by
  refine ⟨rfl, ?_⟩
  show ¬ ((10 : ℝ) ≤ 5.0)
  norm_num

/-- C3 amended: `smoothing_alpha ∈ [0.05, 0.95]` holds after construction
from any configuration and after any hotkey sequence; `g_scale ∈ [0.5, 5.0]`
is preserved by every hotkey sequence provided the configured `g_scale` is
itself in `[0.5, 5.0]` (construction copies it without clamping). -/
theorem settings_invariant (c : Config) (ks : List Key) :
    (0.05 ≤ (applyKeys (initSettings c) ks).alpha
      ∧ (applyKeys (initSettings c) ks).alpha ≤ 0.95)
    ∧ (0.5 ≤ c.g_scale → c.g_scale ≤ 5.0 →
        0.5 ≤ (applyKeys (initSettings c) ks).g_scale
        ∧ (applyKeys (initSettings c) ks).g_scale ≤ 5.0) := by
  constructor
  · exact applyKeys_alpha_bounds ks (initSettings c) (le_max_left _ _)
      (max_le (by norm_num) (min_le_left _ _))
  · intro hg1 hg2
    exact applyKeys_gscale_bounds ks (initSettings c) hg1 hg2

/-- A concrete configuration with in-range g_scale and hotkeys enabled. -/
def cfgEx : Config := Config.mk 2 0.25 false false false true

/-- Witness for C3 (amended) at a concrete configuration and key
sequence. -/
theorem settings_invariant_witness :
    (0.05 ≤ (applyKeys (initSettings cfgEx) [Key.keyPlus, Key.keyA]).alpha
      ∧ (applyKeys (initSettings cfgEx) [Key.keyPlus, Key.keyA]).alpha
          ≤ 0.95)
    ∧ (0.5 ≤ (applyKeys (initSettings cfgEx) [Key.keyPlus, Key.keyA]).g_scale
      ∧ (applyKeys (initSettings cfgEx) [Key.keyPlus, Key.keyA]).g_scale
          ≤ 5.0) :=
  ⟨(settings_invariant cfgEx [Key.keyPlus, Key.keyA]).1,
   (settings_invariant cfgEx [Key.keyPlus, Key.keyA]).2
     (by norm_num : (0.5 : ℝ) ≤ 2) (by norm_num : (2 : ℝ) ≤ 5.0)⟩

/-- A source state where both longitudinal variables are absent but the
lateral channel, pitch and roll are readable. -/
def rdOneMissing : VarName → Option ℝ
  | .latAccel => some 1
  | .pitch => some 3
  | .roll => some 7
  | _ => none

/-- C4 counterexample: on a connected tick where only the longitudinal
acceleration is unreadable, the emitted frame has NaN in the longitudinal
channel only — the lateral channel keeps its value and pitch/roll are read
from the source, not zeroed. -/
theorem tick_partial_nodata :
    (tick true false rdOneMissing).long_ms2 = none
    ∧ (tick true false rdOneMissing).lat_ms2 = some 1
    ∧ (tick true false rdOneMissing).pitch = some 3
    ∧ (tick true false rdOneMissing).roll = some 7
    ∧ ¬ ((tick true false rdOneMissing).lat_ms2 = none)
    ∧ ¬ ((tick true false rdOneMissing).pitch = some 0) := by
  refine ⟨rfl, rfl, rfl, rfl, ?_, ?_⟩
  · intro h
    simp only [show (tick true false rdOneMissing).lat_ms2 = some 1 from rfl]
      at h
    exact Option.noConfusion h
  · intro h
    simp only [show (tick true false rdOneMissing).pitch = some 3 from rfl,
      Option.some.injEq] at h
    norm_num at h

/-- C4 amended: when the source is unreachable or the tick raises, the
frame is `(NaN, NaN, 0, 0)`; on a connected, non-raising tick an
acceleration channel is NaN exactly when both its variables are absent,
and pitch/roll are read through their own (fallback-free) lookup rather
than zeroed. -/
theorem tick_nodata_amended (connected raises : Bool)
    (rd : VarName → Option ℝ) :
    noDataFrame = ⟨none, none, some 0, some 0⟩
    ∧ ((raises || !connected) = true →
        tick connected raises rd = noDataFrame)
    ∧ (connected = true → raises = false →
        (rd .longAccelST = none → rd .longAccel = none →
          (tick connected raises rd).long_ms2 = none)
        ∧ (rd .latAccelST = none → rd .latAccel = none →
          (tick connected raises rd).lat_ms2 = none)
        ∧ (tick connected raises rd).pitch = getvarNoFall rd .pitch
        ∧ (tick connected raises rd).roll = getvarNoFall rd .roll) := by
  refine ⟨rfl, ?_, ?_⟩
  · intro h
    rw [tick, if_pos h]
  · intro hc hr
    subst hc
    subst hr
    rw [tick, if_neg (by decide)]
    refine ⟨?_, ?_, rfl, rfl⟩
    · intro h1 h2
      show getvar rd .longAccelST .longAccel = none
      rw [getvar, h1, h2]
    · intro h1 h2
      show getvar rd .latAccelST .latAccel = none
      rw [getvar, h1, h2]

/-- Witness for C4 (amended): a disconnected tick, and a connected tick on
an empty source. -/
theorem tick_nodata_amended_witness :
    tick false false (fun _ => none) = noDataFrame
    ∧ (tick true false (fun _ => none)).long_ms2 = none
    ∧ (tick true false (fun _ => none)).lat_ms2 = none :=
  ⟨(tick_nodata_amended false false (fun _ => none)).2.1 rfl,
   ((tick_nodata_amended true false (fun _ => none)).2.2 rfl rfl).1 rfl rfl,
   ((tick_nodata_amended true false (fun _ => none)).2.2 rfl rfl).2.1 rfl
     rfl⟩

/-- C8: the renderer's coordinate mapping is linear and symmetric: the
offset from the window center is `(value / g_scale) * radius` with
`radius = 0.45 * min w h`, the sign inverted on both axes; `+g_scale` maps
to exactly `radius` pixels of offset, `-g_scale` to `-radius`, and `0` to
the center. -/
theorem pixel_mapping_linear (w h s v : ℝ) (hs : s ≠ 0) :
    (w / 2 - dotX w h s v = v / s * radiusOf w h)
    ∧ (h / 2 - dotY w h s v = v / s * radiusOf w h)
    ∧ radiusOf w h = 0.45 * min w h
    ∧ dotX w h s s = w / 2 - radiusOf w h
    ∧ dotX w h s (-s) = w / 2 + radiusOf w h
    ∧ dotY w h s s = h / 2 - radiusOf w h
    ∧ dotY w h s (-s) = h / 2 + radiusOf w h
    ∧ dotX w h s 0 = w / 2
    ∧ dotY w h s 0 = h / 2 := by
  have hss : s / s = 1 := div_self hs
  have hns : -s / s = -1 := by rw [neg_div, hss]
  refine ⟨by unfold dotX; ring, by unfold dotY; ring,
    by unfold radiusOf; ring, ?_, ?_, ?_, ?_, ?_, ?_⟩
  · unfold dotX; rw [hss]; ring
  · unfold dotX; rw [hns]; ring
  · unfold dotY; rw [hss]; ring
  · unfold dotY; rw [hns]; ring
  · unfold dotX; rw [zero_div]; ring
  · unfold dotY; rw [zero_div]; ring

/-- Witness for C8 at a 200x100 window, `g_scale = 2`, `v = 1`. -/
theorem pixel_mapping_linear_witness :
    ((200 : ℝ) / 2 - dotX 200 100 2 1 = 1 / 2 * radiusOf 200 100)
    ∧ ((100 : ℝ) / 2 - dotY 200 100 2 1 = 1 / 2 * radiusOf 200 100)
    ∧ radiusOf 200 100 = 0.45 * min 200 100
    ∧ dotX 200 100 2 2 = 200 / 2 - radiusOf 200 100
    ∧ dotX 200 100 2 (-2) = 200 / 2 + radiusOf 200 100
    ∧ dotY 200 100 2 2 = 100 / 2 - radiusOf 200 100
    ∧ dotY 200 100 2 (-2) = 100 / 2 + radiusOf 200 100
    ∧ dotX 200 100 2 0 = 200 / 2
    ∧ dotY 200 100 2 0 = 100 / 2 :=
  pixel_mapping_linear 200 100 2 1 (by norm_num)

/-- C9: for every `alpha` in `[0.05, 0.95]`, each smoothing step contracts
the distance to a constant input `c` by the factor `1 - alpha`, the error
after `n` steps is `(1-alpha)^n` times the initial error, and the iterated
smoothed value converges to `c`. -/
theorem ema_constant_converges (a c x0 : ℝ) (h1 : 0.05 ≤ a)
    (h2 : a ≤ 0.95) :
    (∀ x : ℝ, ema (some (some x)) (some c) a = some (a * c + (1 - a) * x)
      ∧ |a * c + (1 - a) * x - c| = (1 - a) * |x - c|)
    ∧ (∀ n : ℕ, emaIter a (some c) (some x0) n
        = some (c + (1 - a) ^ n * (x0 - c)))
    ∧ (∀ n : ℕ, |c + (1 - a) ^ n * (x0 - c) - c|
        = (1 - a) ^ n * |x0 - c|)
    ∧ Filter.Tendsto (fun n => (emaIter a (some c) (some x0) n).getD 0)
        Filter.atTop (nhds c) := by
  have hq0 : (0 : ℝ) ≤ 1 - a := by linarith
  have key : ∀ n : ℕ, emaIter a (some c) (some x0) n
      = some (c + (1 - a) ^ n * (x0 - c)) := by
    intro n
    induction n with
    | zero =>
      show some x0 = some (c + (1 - a) ^ 0 * (x0 - c))
      rw [Option.some.injEq, pow_zero]
      ring
    | succ n ih =>
      rw [show emaIter a (some c) (some x0) (n + 1)
          = ema (some (emaIter a (some c) (some x0) n)) (some c) a from rfl,
        ih]
      show some (a * c + (1 - a) * (c + (1 - a) ^ n * (x0 - c)))
        = some (c + (1 - a) ^ (n + 1) * (x0 - c))
      rw [Option.some.injEq]
      ring
  refine ⟨?_, key, ?_, ?_⟩
  · intro x
    refine ⟨rfl, ?_⟩
    rw [show a * c + (1 - a) * x - c = (1 - a) * (x - c) by ring, abs_mul,
      abs_of_nonneg hq0]
  · intro n
    rw [show c + (1 - a) ^ n * (x0 - c) - c = (1 - a) ^ n * (x0 - c) by
        ring,
      abs_mul, abs_of_nonneg (pow_nonneg hq0 n)]
  · have hpow : Filter.Tendsto (fun n : ℕ => (1 - a) ^ n) Filter.atTop
        (nhds 0) :=
      tendsto_pow_atTop_nhds_zero_of_lt_one hq0 (by linarith)
    have hconst : Filter.Tendsto (fun _ : ℕ => c) Filter.atTop (nhds c) :=
      tendsto_const_nhds
    have hlim : Filter.Tendsto (fun n : ℕ => c + (1 - a) ^ n * (x0 - c))
        Filter.atTop (nhds c) := by
      have hsum := hconst.add (hpow.mul_const (x0 - c))
      simpa using hsum
    refine hlim.congr ?_
    intro n
    rw [key n, Option.getD_some]

/-- Witness for C9 at `alpha = 0.25`, constant input `1`, initial smoothed
value `0`, one step. -/
theorem ema_constant_converges_witness :
    emaIter 0.25 (some 1) (some 0) 1 = some (1 + (1 - 0.25) ^ 1 * (0 - 1))
    :=
  (ema_constant_converges 0.25 1 0 (by norm_num) (by norm_num)).2.1 1

theorem fdiv_nan_left (y : FVal) : fdiv none y = none := rfl

theorem compLong_nan_pitch (long : FVal) : compLong long none = none := by
  cases long <;> rfl

theorem compLat_nan_pitch (lat roll : FVal) : compLat lat none roll = none
    := by
  cases lat <;> cases roll <;> rfl

theorem compLat_nan_roll (lat pitch : FVal) : compLat lat pitch none = none
    := by
  cases lat <;> cases pitch <;> rfl

/-- A fresh overlay state with gravity compensation enabled. -/
def stComp : OverlayState :=
  { alpha := 1
    use_comp := true
    s_long_g := none
    s_lat_g := none
    last_pos := none
    trail := [] }

/-- A frame with readable accelerations and pitch, but NaN roll. -/
def fRollNaN : TelemetryFrame := ⟨some 0, some 0, some 0, none⟩

/-- C10 counterexample: with compensation enabled, a frame whose
accelerations and pitch are readable but whose roll is NaN poisons only
the lateral channel — the longitudinal smoothed channel stays a real
value, so the claim that both smoothed channels become NaN is false. -/
theorem nan_roll_spares_long :
    (onTelemetry stComp fRollNaN).s_lat_g = some none
    ∧ (onTelemetry stComp fRollNaN).s_long_g
        = some (some ((0 + G0 * Real.sin 0) / G0))
    ∧ ¬ ((onTelemetry stComp fRollNaN).s_long_g = some none) := by
  refine ⟨rfl, rfl, ?_⟩
  intro hcontra
  simp only [show (onTelemetry stComp fRollNaN).s_long_g
      = some (some ((0 + G0 * Real.sin 0) / G0)) from rfl,
    Option.some.injEq] at hcontra
  exact Option.noConfusion hcontra

/-- C10 amended: with compensation enabled and both accelerations
readable, a NaN pitch makes both smoothed channels NaN while a NaN roll
makes the lateral channel NaN; the frame is not treated as a no-data frame
(a last position is stored); a NaN smoothed channel persists through any
further frame with readable accelerations; and a frame with NaN in an
acceleration channel resets both channels to the unset state. -/
theorem nan_attitude_propagation (st : OverlayState) (f : TelemetryFrame)
    (hcomp : st.use_comp = true)
    (hl : f.long_ms2.isSome = true) (hla : f.lat_ms2.isSome = true) :
    (f.pitch = none →
      (onTelemetry st f).s_long_g = some none
      ∧ (onTelemetry st f).s_lat_g = some none)
    ∧ (f.roll = none → (onTelemetry st f).s_lat_g = some none)
    ∧ ¬ ((onTelemetry st f).last_pos = none)
    ∧ (st.s_long_g = some none → (onTelemetry st f).s_long_g = some none)
    ∧ (st.s_lat_g = some none → (onTelemetry st f).s_lat_g = some none)
    ∧ (∀ (st2 : OverlayState) (g : TelemetryFrame),
        fisnan g.long_ms2 = true ∨ fisnan g.lat_ms2 = true →
        (onTelemetry st2 g).s_long_g = none
        ∧ (onTelemetry st2 g).s_lat_g = none) := by
  obtain ⟨fl, fm, fp, fr⟩ := f
  obtain ⟨a, uc, sl, sla, lp, tr⟩ := st
  replace hcomp : uc = true := hcomp
  subst hcomp
  replace hl : fl.isSome = true := hl
  replace hla : fm.isSome = true := hla
  obtain ⟨l, rfl⟩ := Option.isSome_iff_exists.mp hl
  obtain ⟨m, rfl⟩ := Option.isSome_iff_exists.mp hla
  refine ⟨?_, ?_, ?_, ?_, ?_, ?_⟩
  · intro hp
    replace hp : fp = none := hp
    subst hp
    constructor
    · show some (ema sl (fdiv (compLong (some l) none) (some G0)) a)
        = some none
      rw [compLong_nan_pitch, fdiv_nan_left, ema_nan_new]
    · show some (ema sla (fdiv (compLat (some m) none fr) (some G0)) a)
        = some none
      rw [compLat_nan_pitch, fdiv_nan_left, ema_nan_new]
  · intro hr
    replace hr : fr = none := hr
    subst hr
    show some (ema sla (fdiv (compLat (some m) fp none) (some G0)) a)
      = some none
    rw [compLat_nan_roll, fdiv_nan_left, ema_nan_new]
  · exact Option.some_ne_none _
  · intro hsl
    replace hsl : sl = some none := hsl
    subst hsl
    show some (ema (some none) (fdiv (compLong (some l) fp) (some G0)) a)
      = some none
    rw [ema_nan_prev]
  · intro hsla
    replace hsla : sla = some none := hsla
    subst hsla
    show some (ema (some none) (fdiv (compLat (some m) fp fr) (some G0)) a)
      = some none
    rw [ema_nan_prev]
  · intro st2 g hg
    have hcond : (fisnan g.long_ms2 || fisnan g.lat_ms2) = true := by
      rcases hg with hg | hg <;> simp [hg]
    rw [onTelemetry, if_pos hcond]
    exact ⟨rfl, rfl⟩

/-- A frame with readable accelerations but NaN pitch. -/
def fPitchNaN : TelemetryFrame := ⟨some 1, some 2, none, some 0⟩

/-- Witness for C10 (amended) at a concrete compensating state and a frame
with NaN pitch. -/
theorem nan_attitude_propagation_witness :
    (onTelemetry stComp fPitchNaN).s_long_g = some none
    ∧ (onTelemetry stComp fPitchNaN).s_lat_g = some none :=
  (nan_attitude_propagation stComp fPitchNaN rfl rfl rfl).1 rfl

end IrGmeter
